import Mathlib

/-!
Verification development for the rename-screenshot tool.

The repository watches a directory for screenshot files, asks a vision model
for a structured rename suggestion, and moves each file into a category
folder under a date-prefixed, collision-safe name, keeping a backup.

This file gives a shallow embedding of the pieces of the source that the
checked properties are about:

* the collision-safe rename operation (src/providers/schema.ts, renameFile);
* date inference from filenames and file metadata
  (src/providers/schema.ts, getDateFromScreenshot and isValidDate);
* the two provider rename pipelines (OpenAIProvider.rename,
  OllamaProvider.rename) over an abstract model-reply type;
* the per-file worker (fileProcessor.ts, processFile) and the sequential
  queue (watcher.ts, startWatcher).

External collaborators (the node path library, the filesystem, JSON.parse,
the JavaScript Date object, the system clock and the model endpoint) are
modelled explicitly: the filesystem as a finite association list of paths,
clock and timezone-dependent conversions as parameters, JSON.parse as an
executable parser for the JSON fragment the tool exchanges.
-/

namespace RenameScreenshot

/-! ## Result record (src/types.ts, JsonResponse) -/

/-- Embedding of the JsonResponse record from src/types.ts: an optional
category and a suggested filename. -/
structure JsonResponse where
  category : Option String
  filename : String
deriving DecidableEq, Repr

/-! ## Model of the node path library (posix flavour, external collaborator)

Only the operations the source uses: dirname, basename (with optional
suffix stripping), extname and join, for the ordinary relative or
absolute slash-separated paths the tool builds. -/

/-- Split a character list on a separator character (the list analogue of
String.splitOn with a one-character separator). -/
def splitOnChar (sep : Char) : List Char → List (List Char)
  | [] => [[]]
  | c :: cs =>
    let r := splitOnChar sep cs
    if c = sep then [] :: r
    else
      match r with
      | h :: t => (c :: h) :: t
      | [] => [[c]]

/-- Interleave a separator character between character-list pieces. -/
def joinWithChar (sep : Char) : List (List Char) → List Char
  | [] => []
  | [h] => h
  | h :: t => h ++ sep :: joinWithChar sep t

/-- Model of node path.dirname for posix paths. -/
def pathDirname (p : String) : String :=
  let parts := splitOnChar '/' p.data
  if parts.length ≤ 1 then "."
  else
    let d := joinWithChar '/' parts.dropLast
    if d = [] then "/" else String.mk d

/-- Model of node path.basename (no suffix argument). -/
def pathBasename (p : String) : String :=
  String.mk ((splitOnChar '/' p.data).getLast?.getD [])

/-- Model of node path.extname: the dotted extension of the basename, or the
empty string when the basename has no dot after its first character. -/
def pathExtname (p : String) : String :=
  let b := (pathBasename p).data
  let r := b.reverse
  match r.findIdx? (· = '.') with
  | none => ""
  | some i => if i + 1 = b.length then "" else String.mk ((r.take (i + 1)).reverse)

/-- Model of node path.basename with a suffix argument: the basename with the
suffix removed when it is a proper trailing part of it. -/
def pathBasenameDrop (p ext : String) : String :=
  let b := pathBasename p
  if b ≠ ext ∧ ext.data.isSuffixOf b.data then
    String.mk (b.data.take (b.data.length - ext.data.length))
  else b

/-- Model of node path.join restricted to two segments. -/
def pathJoin (a b : String) : String :=
  if a = "" ∨ a = "." then b
  else if a.data.getLast? = some '/' then a ++ b
  else a ++ "/" ++ b

/-! ## Decimal rendering of naturals

Model of the JavaScript number-to-string conversion used by template
literals in the source, together with the injectivity fact needed to show
that the collision loop always terminates on a fresh path. -/

/-- One decimal digit as a character. -/
def digitChar (d : Nat) : Char :=
  match d with
  | 0 => '0' | 1 => '1' | 2 => '2' | 3 => '3' | 4 => '4'
  | 5 => '5' | 6 => '6' | 7 => '7' | 8 => '8' | 9 => '9'
  | _ => '*'

/-- Decimal digit list of a natural number, most significant first,
fuelled so that it unfolds by computation; the fuel n + 1 always
suffices. -/
def natDigitsAux : Nat → Nat → List Char
  | 0, _ => []
  | Nat.succ fuel, n =>
    if n < 10 then [digitChar n]
    else natDigitsAux fuel (n / 10) ++ [digitChar (n % 10)]

/-- Decimal digit list of a natural number, most significant first. -/
def natDigits (n : Nat) : List Char :=
  natDigitsAux (n + 1) n

/-- Model of the JavaScript decimal rendering of a natural number. -/
def natToString (n : Nat) : String :=
  String.mk (natDigits n)

/-- Numeric value of a digit character. -/
def charDigitVal (c : Char) : Nat := c.toNat - 48

/-- Value of a most-significant-first digit list. -/
def digitsVal (l : List Char) : Nat :=
  l.foldl (fun a c => a * 10 + charDigitVal c) 0

/-! ## Filesystem model and the collision-safe rename
(src/providers/schema.ts, renameFile)

The filesystem is a finite association list from paths to file contents
(abstracted to a natural number identity).  fs.existsSync is membership of
the path; fs.promises.rename either succeeds, moving the entry, or fails
(permissions and the like), which the embedding models with an explicit
outcome flag, since the syscall itself is an external collaborator. -/

/-- A finite filesystem: paths associated with file-content identities. -/
abbrev FileSys := List (String × Nat)

/-- Model of fs.existsSync. -/
def existsSync (fs : FileSys) (p : String) : Bool :=
  fs.any (fun e => e.1 = p)

/-- Content lookup in the filesystem model. -/
def fsLookup (fs : FileSys) (p : String) : Option Nat :=
  (fs.find? (fun e => e.1 = p)).map (·.2)

/-- The suffixed candidate paths renameFile probes: candidate 0 is the
requested target itself, candidate count (for positive count) inserts a
dash and the decimal count before the extension, exactly as the template
literal in the source builds it. -/
def renameCandidate (newFilePath : String) : Nat → String
  | 0 => newFilePath
  | Nat.succ k =>
    pathJoin (pathDirname newFilePath)
      (pathBasenameDrop newFilePath (pathExtname newFilePath)
        ++ "-" ++ natToString (Nat.succ k) ++ pathExtname newFilePath)

/-- The while loop of renameFile: starting from the current count and
candidate, keep incrementing while the candidate exists (and overwrite is
not requested).  Fuel bounds the iteration count; the caller passes enough
fuel for a free candidate to be reached (renameLoop_finds below). -/
def renameLoop (fs : FileSys) (newFilePath : String) (overwrite : Bool) :
    Nat → Nat → String → String
  | 0, _, finalPath => finalPath
  | Nat.succ fuel, count, finalPath =>
    if existsSync fs finalPath ∧ ¬overwrite then
      renameLoop fs newFilePath overwrite fuel (count + 1)
        (renameCandidate newFilePath (count + 1))
    else finalPath

/-- The final path renameFile settles on before issuing the move. -/
def resolveRenamePath (fs : FileSys) (newFilePath : String) (overwrite : Bool) :
    String :=
  renameLoop fs newFilePath overwrite (fs.length + 2) 0 newFilePath

/-- Semantics of a successful fs.promises.rename syscall on the model
filesystem: the entry at the old path is re-keyed to the final path. -/
def fsRename (fs : FileSys) (oldPath finalPath : String) : FileSys :=
  match fsLookup fs oldPath with
  | none => fs
  | some c =>
    (List.filter (fun e => ¬(e.1 = oldPath ∨ e.1 = finalPath)) fs)
      ++ [(finalPath, c)]

/-- Embedding of renameFile (schema.ts lines 146-169): compute the final
path by suffixing until no existing file is hit, then attempt the move.  A
failing move syscall (moveFails) is caught and only logged, so the
function is total and returns the filesystem unchanged in that case. -/
def renameFile (fs : FileSys) (oldPath newFilePath : String)
    (overwrite : Bool) (moveFails : Bool) : FileSys :=
  let finalPath := resolveRenamePath fs newFilePath overwrite
  if moveFails then fs
  else fsRename fs oldPath finalPath

/-! ## JSON values and a model of the JSON.parse builtin

JSON.parse is platform code external to this repository.  The model below
parses the JSON fragment the tool actually exchanges: null, booleans,
integer numbers, strings with the common escapes, arrays and objects.
Fractional and exponent number forms and unicode escapes are outside the
model. -/

/-- JSON values. -/
inductive Json where
  | null
  | bool (b : Bool)
  | num (n : Int)
  | str (s : String)
  | arr (elems : List Json)
  | obj (fields : List (String × Json))

/-- Property access on a parsed JSON value, as JavaScript sees it: only
objects have properties, and a duplicate key keeps its last value. -/
def jsonField (v : Json) (key : String) : Option Json :=
  match v with
  | Json.obj fields => (fields.reverse.find? (fun f => f.1 = key)).map (·.2)
  | _ => none

/-- String-typed property access: the value of the key when it is present
and is a string. -/
def jsonStrField (v : Json) (key : String) : Option String :=
  match jsonField v key with
  | some (Json.str s) => some s
  | _ => none

/-- Whitespace test for the trim model. -/
def isWsCh (c : Char) : Bool := c = ' ' ∨ c = '\t' ∨ c = '\n' ∨ c = '\r'

/-- Model of String.prototype.trim: strip leading and trailing
whitespace. -/
def strTrim (s : String) : String :=
  String.mk (((s.data.dropWhile isWsCh).reverse.dropWhile isWsCh).reverse)

/-- Whitespace skipping for the parser model. -/
def skipWs : List Char → List Char
  | c :: cs => if c = ' ' ∨ c = '\n' ∨ c = '\t' ∨ c = '\r' then skipWs cs else c :: cs
  | [] => []

/-- Is the character an ascii decimal digit. -/
def isDigitCh (c : Char) : Bool := 48 ≤ c.toNat ∧ c.toNat ≤ 57

/-- Parse a JSON string body after the opening quote, handling the common
escapes; returns the string and the rest after the closing quote. -/
def parseStrBody : List Char → Option (List Char × List Char)
  | [] => none
  | c :: cs =>
    if c = '"' then some ([], cs)
    else if c = '\\' then
      match cs with
      | [] => none
      | e :: cs2 =>
        let dec : Option Char :=
          if e = '"' then some '"'
          else if e = '\\' then some '\\'
          else if e = '/' then some '/'
          else if e = 'n' then some '\n'
          else if e = 't' then some '\t'
          else if e = 'r' then some '\r'
          else none
        match dec with
        | none => none
        | some d => (parseStrBody cs2).map (fun r => (d :: r.1, r.2))
    else (parseStrBody cs).map (fun r => (c :: r.1, r.2))

/-- Take a maximal nonempty run of decimal digits. -/
def takeDigitRun : List Char → Option (List Char × List Char)
  | [] => none
  | c :: cs =>
    if isDigitCh c then
      match takeDigitRun cs with
      | some (ds, rest) => some (c :: ds, rest)
      | none => some ([c], cs)
    else none

mutual

/-- Parse one JSON value (model of the JSON.parse grammar, fuelled). -/
def parseVal : Nat → List Char → Option (Json × List Char)
  | 0, _ => none
  | Nat.succ fuel, cs =>
    match skipWs cs with
    | 'n' :: 'u' :: 'l' :: 'l' :: rest => some (Json.null, rest)
    | 't' :: 'r' :: 'u' :: 'e' :: rest => some (Json.bool true, rest)
    | 'f' :: 'a' :: 'l' :: 's' :: 'e' :: rest => some (Json.bool false, rest)
    | '"' :: rest =>
      match parseStrBody rest with
      | some (body, rest2) => some (Json.str (String.mk body), rest2)
      | none => none
    | '[' :: rest =>
      (match skipWs rest with
       | ']' :: rest2 => some (Json.arr [], rest2)
       | _ => parseElems fuel (skipWs rest) [])
    | '{' :: rest =>
      (match skipWs rest with
       | '}' :: rest2 => some (Json.obj [], rest2)
       | _ => parseFields fuel (skipWs rest) [])
    | '-' :: rest =>
      match takeDigitRun rest with
      | some (ds, rest2) =>
        (match rest2 with
         | '.' :: _ => none
         | 'e' :: _ => none
         | 'E' :: _ => none
         | _ => some (Json.num (-(Int.ofNat (digitsVal ds))), rest2))
      | none => none
    | c :: rest =>
      if isDigitCh c then
        match takeDigitRun (c :: rest) with
        | some (ds, rest2) =>
          (match rest2 with
           | '.' :: _ => none
           | 'e' :: _ => none
           | 'E' :: _ => none
           | _ => some (Json.num (Int.ofNat (digitsVal ds)), rest2))
        | none => none
      else none
    | [] => none

/-- Parse the remaining comma-separated elements of an array. -/
def parseElems : Nat → List Char → List Json → Option (Json × List Char)
  | 0, _, _ => none
  | Nat.succ fuel, cs, acc =>
    match parseVal fuel cs with
    | none => none
    | some (v, rest) =>
      match skipWs rest with
      | ',' :: rest2 => parseElems fuel rest2 (v :: acc)
      | ']' :: rest2 => some (Json.arr (v :: acc).reverse, rest2)
      | _ => none

/-- Parse the remaining comma-separated fields of an object. -/
def parseFields : Nat → List Char → List (String × Json) →
    Option (Json × List Char)
  | 0, _, _ => none
  | Nat.succ fuel, cs, acc =>
    match skipWs cs with
    | '"' :: rest =>
      (match parseStrBody rest with
       | none => none
       | some (key, rest2) =>
         match skipWs rest2 with
         | ':' :: rest3 =>
           (match parseVal fuel rest3 with
            | none => none
            | some (v, rest4) =>
              match skipWs rest4 with
              | ',' :: rest5 => parseFields fuel rest5 ((String.mk key, v) :: acc)
              | '}' :: rest5 => some (Json.obj ((String.mk key, v) :: acc).reverse, rest5)
              | _ => none)
         | _ => none)
    | _ => none

end

/-- Model of the JSON.parse builtin: parse one value and require only
whitespace after it; a parse failure is the thrown SyntaxError. -/
def jsonParse (s : String) : Option Json :=
  match parseVal (s.length + 1) s.data with
  | some (v, rest) =>
    (match skipWs rest with
     | [] => some v
     | _ => none)
  | none => none

/-! ## Shared extraction and validation helpers of the provider base class

The ScreenshotRenamer base class implementation (its extractJsonFromText,
validateJsonResponse and handleProviderError members) is not among the
provided sources; only its interface declaration and its two subclasses
are.  The three helpers are therefore modelled from the spec (sections 4.1,
4.2 and the FailureSentinel definition in section 3). -/

/-- Find the first index at which the needle occurs as a contiguous
sublist of the haystack. -/
def findSublistIdx (needle : List Char) : List Char → Option Nat
  | [] => if needle.isEmpty then some 0 else none
  | c :: cs =>
    if needle.isPrefixOf (c :: cs) then some 0
    else (findSublistIdx needle cs).map (· + 1)

/-- The span from the first opening brace to the last closing brace. -/
def braceSpan (cs : List Char) : Option (List Char) :=
  match cs.findIdx? (· = '{') with
  | none => none
  | some i =>
    match cs.reverse.findIdx? (· = '}') with
    | none => none
    | some rj =>
      let j := cs.length - 1 - rj
      if i < j + 1 then some ((cs.drop i).take (j + 1 - i)) else none

/-- The inner content of the first fenced code block, with an optional
json tag after the opening fence. -/
def fencedSpan (cs : List Char) : Option (List Char) :=
  let fence := "```".data
  match findSublistIdx fence cs with
  | none => none
  | some i =>
    let afterOpen := cs.drop (i + 3)
    let body := if ("json".data).isPrefixOf afterOpen then afterOpen.drop 4
      else afterOpen
    match findSublistIdx fence body with
    | none => none
    | some j => some (body.take j)

/-- Modelled from the spec: third extraction strategy of section 4.1 of the
missing ScreenshotRenamer base class, searching for a fenced code block and
parsing its inner content. -/
def fencedParse (text : String) : Option Json :=
  match fencedSpan text.data with
  | some s => jsonParse (String.mk s)
  | none => none

/-- Modelled from the spec: extractJsonFromText of the missing
ScreenshotRenamer base class (spec section 4.1).  Three ordered strategies,
each attempted only if the previous fails: parse the entire text; parse the
first brace-delimited span; parse the inner content of a fenced code
block.  Failure of all three yields no record, never an error. -/
def extractJsonFromText (text : String) : Option Json :=
  match jsonParse text with
  | some v => some v
  | none =>
    match braceSpan text.data with
    | some span =>
      (match jsonParse (String.mk span) with
       | some v => some v
       | none => fencedParse text)
    | none => fencedParse text

/-- Modelled from the spec: validateJsonResponse of the missing
ScreenshotRenamer base class (spec section 4.2).  The filename key must
exist, be a string and be nonempty after trimming; category, if present,
must be a string; validation never throws. -/
def validateJsonResponse (v : Json) : Bool :=
  match jsonField v "filename" with
  | some (Json.str s) =>
    if strTrim s = "" then false
    else
      (match jsonField v "category" with
       | none => true
       | some (Json.str _) => true
       | some _ => false)
  | _ => false

/-- Modelled from the spec: handleProviderError of the missing
ScreenshotRenamer base class.  It logs and resolves to the FailureSentinel,
the ClassificationResult with filename unknown and no category (spec
section 3); never an exception across the provider boundary. -/
def handleProviderError (_err _ctx : String) : JsonResponse :=
  { category := none, filename := "unknown" }

/-- The FailureSentinel value (spec section 3). -/
def failureSentinel : JsonResponse :=
  { category := none, filename := "unknown" }

/-! ## Model replies and the two provider pipelines

A model reply is read by the source through three fields: the finish
reason, an optional function/tool call (name plus arguments, the arguments
being a string when present as one) and the plain text content (the empty
string standing for absent content, matching JavaScript falsiness of both).
Each rename embedding takes the reply the structured-call request would
receive and the reply the free-text fallback request would receive. -/

/-- A function or tool invocation in a model reply. -/
structure FnCall where
  name : String
  arguments : Option String
deriving DecidableEq, Repr

/-- The observable shape of one model reply. -/
structure ModelReply where
  finishReason : String
  fnCall : Option FnCall
  content : String
deriving DecidableEq, Repr

/-- The record both providers build from validated tool-call arguments:
category passed through, filename defaulted to unknown when falsy
(providers/OpenAIProvider.ts lines 102-105, OllamaProvider lines 149-152).
On the only reachable inputs, validated records, the filename is the
nonempty string of the filename field. -/
def toolCallResult (v : Json) : JsonResponse :=
  { category := jsonStrField v "category",
    filename :=
      match jsonStrField v "filename" with
      | some s => if s = "" then "unknown" else s
      | none => "unknown" }

/-- The record observed when a provider returns an extracted JSON object
directly (the extractedJson returns of both fallback paths), projected to
the JsonResponse fields the caller reads. -/
def jsonToResponse (v : Json) : JsonResponse :=
  { category := jsonStrField v "category",
    filename := (jsonStrField v "filename").getD "" }

/-- Embedding of OpenAIProvider.fallbackRename (lines 124-197): no content
resolves to the sentinel; otherwise extract then validate, returning the
extracted record on success and the sentinel on any failure. -/
def openaiFallbackRename (B : ModelReply) : JsonResponse :=
  if B.content = "" then
    handleProviderError "No content in response" "OpenAI Fallback"
  else
    match extractJsonFromText B.content with
    | none => handleProviderError "Failed to extract JSON" "OpenAI Fallback Parsing"
    | some v =>
      if validateJsonResponse v then jsonToResponse v
      else handleProviderError "Invalid JSON structure" "OpenAI Fallback Validation"

/-- The argument string OpenAIProvider.rename hands to JSON.parse:
fnCall.arguments with absent or empty arguments replaced by an empty
object literal (line 93). -/
def openaiArgStr (fc : FnCall) : String :=
  match fc.arguments with
  | none => "\x7b\x7d"
  | some s => if s = "" then "\x7b\x7d" else s

/-- Embedding of OpenAIProvider.rename (lines 45-116): a finish reason
other than stop or function_call, a missing or misnamed function call,
unparsable arguments (with absent or empty arguments read as an empty
object) or failed validation all fall through to the free-text fallback. -/
def openaiRename (A B : ModelReply) : JsonResponse :=
  if A.finishReason ≠ "stop" ∧ A.finishReason ≠ "function_call" then
    openaiFallbackRename B
  else
    match A.fnCall with
    | none => openaiFallbackRename B
    | some fc =>
      if fc.name ≠ "rename_screenshot" then openaiFallbackRename B
      else
        match jsonParse (openaiArgStr fc) with
        | none => openaiFallbackRename B
        | some v =>
          if validateJsonResponse v then toolCallResult v
          else openaiFallbackRename B

/-- Embedding of OllamaProvider.fallbackRename (ScreenshotRenamer.ts lines
211-289): same shape as the OpenAI fallback. -/
def ollamaFallbackRename (B : ModelReply) : JsonResponse :=
  if B.content = "" then
    handleProviderError "No content in response" "Ollama Fallback"
  else
    match extractJsonFromText B.content with
    | none => handleProviderError "Failed to extract JSON" "Ollama Fallback Parsing"
    | some v =>
      if validateJsonResponse v then jsonToResponse v
      else handleProviderError "Invalid JSON structure" "Ollama Fallback Validation"

/-- Embedding of OllamaProvider.rename (ScreenshotRenamer.ts lines 69-203):
with a tool call present, a wrong name, non-string arguments, a parse error
or failed validation fall through to the fallback; with no tool call but
content present, JSON is extracted from that very content in place, the
fallback being used only when extraction or validation fails there; with
neither tool call nor content the provider error handler is returned
directly, with no fallback request.  No finish reason is consulted. -/
def ollamaRename (A B : ModelReply) : JsonResponse :=
  match A.fnCall with
  | some fc =>
    if fc.name ≠ "rename_screenshot" then ollamaFallbackRename B
    else
      (match fc.arguments with
       | none => ollamaFallbackRename B
       | some s =>
         match jsonParse s with
         | none => ollamaFallbackRename B
         | some v =>
           if validateJsonResponse v then toolCallResult v
           else ollamaFallbackRename B)
  | none =>
    if A.content ≠ "" then
      match extractJsonFromText A.content with
      | none => ollamaFallbackRename B
      | some v =>
        if validateJsonResponse v then jsonToResponse v
        else ollamaFallbackRename B
    else handleProviderError "Unexpected response" "Ollama API"

/-! ## Date model (JavaScript Date, external collaborator)

Dates are year/month/day triples with a 1-based month.  The source builds
dates with new Date(year, month - 1, day) under prior range checks
(month 1..12, day 1..31) and reads them back with getFullYear, getMonth
and getDate; within those ranges the constructor normalizes a day overflow
into the following month, which the model reproduces.  Epoch-millisecond
construction and the stat birthtime are timezone dependent and stay
abstract: the embeddings take the conversion as a parameter. -/

/-- A calendar date as the source reads it back from a Date object. -/
structure JSDate where
  year : Nat
  month : Nat
  day : Nat
deriving DecidableEq, Repr

/-- Gregorian leap year test. -/
def isLeapYear (y : Nat) : Bool :=
  y % 4 = 0 ∧ (y % 100 ≠ 0 ∨ y % 400 = 0)

/-- Days in a month. -/
def daysInMonth (y m : Nat) : Nat :=
  if m = 2 then (if isLeapYear y then 29 else 28)
  else if m = 4 ∨ m = 6 ∨ m = 9 ∨ m = 11 then 30
  else 31

/-- Model of new Date(y, m - 1, d) for 1 ≤ m ≤ 12 and 1 ≤ d ≤ 31: a day
beyond the end of the month rolls into the following month. -/
def mkJSDate (y m d : Nat) : JSDate :=
  if d ≤ daysInMonth y m then ⟨y, m, d⟩
  else if m = 12 then ⟨y + 1, 1, d - daysInMonth y m⟩
  else ⟨y, m + 1, d - daysInMonth y m⟩

/-- Embedding of isValidDate (schema.ts lines 496-510), parameterized by
the current year cy (the external clock read by new Date().getFullYear()):
range checks on year, month and day, then the construct-and-read-back
round trip. -/
def isValidDate (cy : Nat) (y m d : Nat) : Bool :=
  if y < 1970 ∨ y > cy + 1 then false
  else if m < 1 ∨ m > 12 then false
  else if d < 1 ∨ d > 31 then false
  else
    let dt := mkJSDate y m d
    dt.year = y ∧ dt.month = m ∧ dt.day = d

/-! ## Regex machinery for the date patterns

The nine date regexes and the three epoch regexes of
getDateFromScreenshot are built from digit groups with exact counts,
digit groups of one or two characters, and literal separators.  The
matcher below implements exactly JavaScript regex semantics for this
fragment: leftmost match wins, and a one-or-two digit group greedily
tries two digits before backtracking to one. -/

/-- One token of the date regex fragment. -/
inductive RTok where
  | dExact (n : Nat)
  | dOneTwo
  | lit (c : Char)

/-- Take exactly n decimal digit characters. -/
def takeExactDigits : Nat → List Char → Option (List Char × List Char)
  | 0, cs => some ([], cs)
  | Nat.succ _, [] => (none : Option (List Char × List Char))
  | Nat.succ n, c :: cs =>
    if isDigitCh c then
      (takeExactDigits n cs).map (fun r => (c :: r.1, r.2))
    else none

/-- Match a token list at the head of the input, returning the consumed
characters and the captured digit groups in order. -/
def matchToks : List RTok → List Char → Option (List Char × List (List Char))
  | [], _ => some ([], [])
  | RTok.lit c :: ts, cs =>
    (match cs with
     | [] => none
     | c2 :: cs2 =>
       if c = c2 then
         (matchToks ts cs2).map (fun r => (c :: r.1, r.2))
       else none)
  | RTok.dExact n :: ts, cs =>
    (match takeExactDigits n cs with
     | none => none
     | some (ds, rest) =>
       (matchToks ts rest).map (fun r => (ds ++ r.1, ds :: r.2)))
  | RTok.dOneTwo :: ts, cs =>
    (match takeExactDigits 2 cs with
     | some (ds, rest) =>
       (match (matchToks ts rest).map (fun r => (ds ++ r.1, ds :: r.2)) with
        | some r => some r
        | none =>
          match takeExactDigits 1 cs with
          | some (d1, rest1) =>
            (matchToks ts rest1).map (fun r => (d1 ++ r.1, d1 :: r.2))
          | none => none)
     | none =>
       match takeExactDigits 1 cs with
       | some (d1, rest1) =>
         (matchToks ts rest1).map (fun r => (d1 ++ r.1, d1 :: r.2))
       | none => none)

/-- Leftmost match of a token list anywhere in the input (the semantics of
String.prototype.match without the global flag, restricted to the match
text and the captures). -/
def findMatch (ts : List RTok) : List Char → Option (List Char × List (List Char))
  | [] => matchToks ts []
  | c :: cs =>
    match matchToks ts (c :: cs) with
    | some r => some r
    | none => findMatch ts cs

/-- First index at or after start where the needle occurs in the haystack
(model of String.prototype.indexOf with a start position). -/
def indexOfFrom (hay needle : List Char) (start : Nat) : Option Nat :=
  (findSublistIdx needle (hay.drop start)).map (· + start)

/-- Embedding of the manual find-all-matches loop of getDateFromScreenshot
(schema.ts lines 420-434), including its advancing arithmetic: after a
match the loop adds the absolute indexOf position plus the match length to
the current start position (which can overshoot and skip later
occurrences).  Fuel is the remaining length bound; the loop body strictly
increases startPos, so the initial fuel of length + 1 is never
exhausted. -/
def collectMatches (ts : List RTok) (name : List Char) :
    Nat → Nat → List (List Char)
  | 0, _ => []
  | Nat.succ fuel, startPos =>
    if startPos < name.length then
      match findMatch ts (name.drop startPos) with
      | none => []
      | some (consumed, _) =>
        let nextPos :=
          match indexOfFrom name consumed startPos with
          | some idx => startPos + idx + consumed.length
          | none => startPos + consumed.length
        consumed :: collectMatches ts name fuel nextPos
    else []

/-- One date pattern of the scan: tokens, the 1-based capture indices of
year, month and day (parts[i] in the source), and the two-digit-year
flag. -/
structure DatePat where
  toks : List RTok
  yearIdx : Nat
  monthIdx : Nat
  dayIdx : Nat
  shortYear : Bool

/-- Numeric value of a captured digit group (Number.parseInt base 10 on a
digit string). -/
def parseIntDigits (ds : List Char) : Nat := digitsVal ds

/-- Processing of one found match (schema.ts lines 438-459): re-match the
pattern against the matched text to recover the capture groups, read year,
month and day from the pattern's indices, resolve a two-digit year (below
70 to 2000 plus, otherwise 1900 plus) and keep the date only when
isValidDate accepts it. -/
def processMatch (cy : Nat) (p : DatePat) (m : List Char) : Option JSDate :=
  match findMatch p.toks m with
  | none => none
  | some (_, caps) =>
    let year0 := parseIntDigits ((caps.getD (p.yearIdx - 1) []))
    let month := parseIntDigits ((caps.getD (p.monthIdx - 1) []))
    let day := parseIntDigits ((caps.getD (p.dayIdx - 1) []))
    let year := if p.shortYear then
        (if year0 < 70 then 2000 + year0 else 1900 + year0)
      else year0
    if isValidDate cy year month day then some (mkJSDate year month day)
    else none

/-- Try one date pattern: collect its matches and keep the first one that
processes to a valid date. -/
def tryDatePattern (cy : Nat) (p : DatePat) (name : List Char) : Option JSDate :=
  (collectMatches p.toks name (name.length + 1) 0).findSome? (processMatch cy p)

/-- The nine date patterns of schema.ts lines 349-415, in source order:
ISO YYYY-MM-DD; US MM/DD/YYYY; European DD.MM.YYYY; two-digit YY-MM-DD;
compact YYYYMMDD; DD-MM-YYYY; YYYY_MM_DD; DD_MM_YYYY; two-digit
MM-DD-YY. -/
def datePatterns : List DatePat :=
  [ ⟨[RTok.dExact 4, RTok.lit '-', RTok.dExact 2, RTok.lit '-', RTok.dExact 2], 1, 2, 3, false⟩,
    ⟨[RTok.dOneTwo, RTok.lit '/', RTok.dOneTwo, RTok.lit '/', RTok.dExact 4], 3, 1, 2, false⟩,
    ⟨[RTok.dOneTwo, RTok.lit '.', RTok.dOneTwo, RTok.lit '.', RTok.dExact 4], 3, 2, 1, false⟩,
    ⟨[RTok.dExact 2, RTok.lit '-', RTok.dExact 2, RTok.lit '-', RTok.dExact 2], 1, 2, 3, true⟩,
    ⟨[RTok.dExact 4, RTok.dExact 2, RTok.dExact 2], 1, 2, 3, false⟩,
    ⟨[RTok.dOneTwo, RTok.lit '-', RTok.dOneTwo, RTok.lit '-', RTok.dExact 4], 3, 2, 1, false⟩,
    ⟨[RTok.dExact 4, RTok.lit '_', RTok.dExact 2, RTok.lit '_', RTok.dExact 2], 1, 2, 3, false⟩,
    ⟨[RTok.dOneTwo, RTok.lit '_', RTok.dOneTwo, RTok.lit '_', RTok.dExact 4], 3, 2, 1, false⟩,
    ⟨[RTok.dOneTwo, RTok.lit '-', RTok.dOneTwo, RTok.lit '-', RTok.dExact 2], 3, 1, 2, true⟩ ]

/-! The three epoch timestamp patterns (schema.ts lines 319-326).  They run
before the date patterns, each consulted once with the plain match method:
the 10-digit pattern with an optional leading bracket, the anchored
13-digit pattern, and the fractional 10-digit pattern. -/

/-- Leftmost capture of the 10-digit epoch pattern: ten digits, optionally
preceded (at the match position) by an opening bracket. -/
def findEpoch10 : List Char → Option (List Char)
  | [] => none
  | c :: cs =>
    match takeExactDigits 10 (c :: cs) with
    | some (ds, _) => some ds
    | none =>
      if c = '[' then
        match takeExactDigits 10 cs with
        | some (ds, _) => some ds
        | none => findEpoch10 cs
      else findEpoch10 cs

/-- The anchored 13-digit epoch pattern. -/
def findEpoch13 (cs : List Char) : Option (List Char) :=
  match takeExactDigits 13 cs with
  | some (ds, _) => some ds
  | none => none

/-- Leftmost capture of the fractional epoch pattern: ten digits, a dot,
then at least three digits. -/
def findEpochFrac : List Char → Option (List Char)
  | [] => none
  | c :: cs =>
    (match takeExactDigits 10 (c :: cs) with
     | some (ds, rest) =>
       (match rest with
        | '.' :: rest2 =>
          (match takeExactDigits 3 rest2 with
           | some _ => some ds
           | none => findEpochFrac cs)
        | _ => findEpochFrac cs)
     | none => findEpochFrac cs)

/-- The epoch pattern loop (schema.ts lines 328-344): each pattern in
order; on a match, convert (seconds scaled to milliseconds for a 10-digit
capture) through the Date constructor and accept only when the resulting
year lies in 1990 .. current year + 1; otherwise move to the next
pattern.  epochToDate is the timezone-dependent millisecond conversion of
the external Date object. -/
def tryEpoch (epochToDate : Nat → JSDate) (cy : Nat) (name : List Char) :
    Option JSDate :=
  let step : Option (List Char) → Option JSDate := fun cap =>
    match cap with
    | none => none
    | some ds =>
      let ts := parseIntDigits ds
      let d := epochToDate (if ds.length = 10 then ts * 1000 else ts)
      if 1990 ≤ d.year ∧ d.year ≤ cy + 1 then some d else none
  match step (findEpoch10 name) with
  | some d => some d
  | none =>
    match step (findEpoch13 name) with
    | some d => some d
    | none => step (findEpochFrac name)

/-- Zero padding to two characters (String(x).padStart(2, "0")). -/
def pad2 (n : Nat) : String :=
  let s := natToString n
  if s.length < 2 then "0" ++ s else s

/-- Formatting of a found date (schema.ts lines 466-471 and 477-482):
unpadded full year, zero-padded month and day. -/
def formatDate (d : JSDate) : String :=
  natToString d.year ++ "-" ++ pad2 d.month ++ "-" ++ pad2 d.day

/-- Embedding of getDateFromScreenshot (schema.ts lines 313-487).  The
filename (basename of the argument) is scanned for epoch timestamps, then
for the nine date patterns in order; the first valid date found is
formatted.  Otherwise the file creation date from filesystem metadata is
used, via the stat oracle keyed by the argument path exactly as
fs.statSync receives it; a stat failure is caught, logged and yields the
empty string. -/
def getDateFromScreenshot (epochToDate : Nat → JSDate) (cy : Nat)
    (stat : String → Option JSDate) (filePath : String) : String :=
  let name := (pathBasename filePath).data
  let found :=
    match tryEpoch epochToDate cy name with
    | some d => some d
    | none => datePatterns.findSome? (fun p => tryDatePattern cy p name)
  match found with
  | some d => formatDate d
  | none =>
    match stat filePath with
    | some bd => formatDate bd
    | none => ""

/-- The date scan as the spec words it: the same machinery, but with the
pattern list in the priority order the spec section 4.4 lists (compact
YYYYMMDD and the underscore forms before the two-digit-year forms, and no
DD-MM-YYYY pattern).  Defined for comparison with the source order. -/
def specOrderDatePatterns : List DatePat :=
  [ ⟨[RTok.dExact 4, RTok.lit '-', RTok.dExact 2, RTok.lit '-', RTok.dExact 2], 1, 2, 3, false⟩,
    ⟨[RTok.dOneTwo, RTok.lit '/', RTok.dOneTwo, RTok.lit '/', RTok.dExact 4], 3, 1, 2, false⟩,
    ⟨[RTok.dOneTwo, RTok.lit '.', RTok.dOneTwo, RTok.lit '.', RTok.dExact 4], 3, 2, 1, false⟩,
    ⟨[RTok.dExact 4, RTok.dExact 2, RTok.dExact 2], 1, 2, 3, false⟩,
    ⟨[RTok.dExact 4, RTok.lit '_', RTok.dExact 2, RTok.lit '_', RTok.dExact 2], 1, 2, 3, false⟩,
    ⟨[RTok.dOneTwo, RTok.lit '_', RTok.dOneTwo, RTok.lit '_', RTok.dExact 4], 3, 2, 1, false⟩,
    ⟨[RTok.dExact 2, RTok.lit '-', RTok.dExact 2, RTok.lit '-', RTok.dExact 2], 1, 2, 3, true⟩,
    ⟨[RTok.dOneTwo, RTok.lit '-', RTok.dOneTwo, RTok.lit '-', RTok.dExact 2], 3, 1, 2, true⟩ ]

/-- The date inference as the spec describes it: identical to the source
pipeline except for scanning the date patterns in the order the spec
lists. -/
def specOrderDateScan (epochToDate : Nat → JSDate) (cy : Nat)
    (stat : String → Option JSDate) (filePath : String) : String :=
  let name := (pathBasename filePath).data
  let found :=
    match tryEpoch epochToDate cy name with
    | some d => some d
    | none => specOrderDatePatterns.findSome? (fun p => tryDatePattern cy p name)
  match found with
  | some d => formatDate d
  | none =>
    match stat filePath with
    | some bd => formatDate bd
    | none => ""

/-! Fixed oracle instantiations used by concrete evaluations. -/

/-- A fixed epoch-to-date conversion for concrete runs on filenames with no
epoch match. -/
def epochToDateFixed : Nat → JSDate := fun _ => ⟨1970, 1, 1⟩

/-- A stat oracle with no readable metadata. -/
def statNone : String → Option JSDate := fun _ => none

/-- A stat oracle that resolves exactly one absolute path, the watched
file, the way fs.statSync does from a working directory that does not
contain the file. -/
def statWatchOnly : String → Option JSDate := fun p =>
  if p = "/watch/Screenshot abc.png" then some ⟨2024, 1, 2⟩ else none

/-! ## The per-file worker (src/fileProcessor.ts, processFile)

After the provider rename resolves, processFile either skips the file
(a warning, no backup, no move) or computes the backup path and the new
target path and performs backup then move.  The decision and the two
computed paths are the observable outcome embedded here; the date is
computed exactly as line 127 does, passing the basename of the file path
to getDateFromScreenshot, whose stat oracle is keyed by the path argument
it receives (fs.statSync resolves a relative path against the working
directory, so a bare basename only finds the file when the working
directory happens to contain it). -/

/-- Embedding of processFile lines 113-153 from the provider result on:
none is the skip branch (warn and return, before any backup or move);
some (backupPath, newPath) is the proceed branch with the computed backup
and target paths. -/
def processFileAction (epochToDate : Nat → JSDate) (cy : Nat)
    (stat : String → Option JSDate) (res : JsonResponse) (filePath : String)
    (categoryKeys : List String) (outputDir originalDir : String) :
    Option (String × String) :=
  let origFilename := pathBasename filePath
  if res.filename = "" then none
  else
    let date := getDateFromScreenshot epochToDate cy stat origFilename
    let newFilename := date ++ "-" ++ res.filename ++ pathExtname filePath
    let targetDir :=
      match res.category with
      | some c =>
        if c ≠ "" ∧ categoryKeys.contains c then pathJoin outputDir c
        else outputDir
      | none => outputDir
    some (pathJoin originalDir origFilename, pathJoin targetDir newFilename)

/-! ## The sequential queue (src/watcher.ts, startWatcher)

The queue processes one item at a time in arrival order.  Per-item work
(read the file, classify, back up, move) can throw; processFile wraps its
whole body in try/catch (lines 105-161), so a throwing item resolves to a
logged failure and the promise handed to the queue never rejects.  The
queue runner below makes exception propagation observable: an escaped
exception aborts the run and drops all later items. -/

/-- Terminal outcome of one queued item. -/
inductive ItemOutcome where
  | completed
  | loggedFailure (msg : String)
deriving DecidableEq, Repr

/-- Embedding of processFile as the queue sees it: the abstract per-item
work (which may throw) run inside the try/catch of lines 105-161, catching
any error into a logged failure. -/
def processFileRun (work : String → Except String Unit) (filePath : String) :
    ItemOutcome :=
  match work filePath with
  | Except.ok _ => ItemOutcome.completed
  | Except.error e => ItemOutcome.loggedFailure e

/-- Sequential queue runner (async.queue with concurrency one, watcher.ts
lines 95-99): items in order; an exception escaping a worker aborts the
run, returning the outcomes so far and the escaped error, with all later
items unprocessed. -/
def runQueue (worker : String → Except String ItemOutcome) :
    List String → List ItemOutcome × Option String
  | [] => ([], none)
  | i :: is =>
    match worker i with
    | Except.error e => ([], some e)
    | Except.ok o =>
      let r := runQueue worker is
      (o :: r.1, r.2)

/-- The worker startWatcher hands to the queue: run processFile and signal
completion; because processFileRun is total, the worker never lets an
exception escape. -/
def queueWorker (work : String → Except String Unit) (filePath : String) :
    Except String ItemOutcome :=
  Except.ok (processFileRun work filePath)

/-! ## Supporting lemmas -/

/-- The join of a fixed directory is appending a fixed prefix. -/
theorem pathJoin_eq_prepend (a : String) :
    ∃ pre : String, ∀ b : String, pathJoin a b = pre ++ b := by
  unfold pathJoin
  by_cases h : a = "" ∨ a = "."
  · exact ⟨"", by intro b; simp [h]⟩
  · by_cases h2 : a.data.getLast? = some '/'
    · exact ⟨a, by intro b; simp [h, h2]⟩
    · exact ⟨a ++ "/", by intro b; simp [h, h2, String.append_assoc]⟩

theorem digitsVal_go (l : List Char) :
    ∀ a : Nat, l.foldl (fun a c => a * 10 + charDigitVal c) a =
      a * 10 ^ l.length + digitsVal l := by
  induction l with
  | nil => intro a; simp [digitsVal]
  | cons c t ih =>
    intro a
    simp only [List.foldl_cons, List.length_cons, digitsVal]
    rw [ih, ih (0 * 10 + charDigitVal c)]
    ring

theorem digitsVal_append (l₁ l₂ : List Char) :
    digitsVal (l₁ ++ l₂) = digitsVal l₁ * 10 ^ l₂.length + digitsVal l₂ := by
  simp only [digitsVal, List.foldl_append]
  rw [digitsVal_go]
  rfl

theorem charDigitVal_digitChar {d : Nat} (h : d < 10) :
    charDigitVal (digitChar d) = d := by
  interval_cases d <;> decide

theorem digitsVal_natDigitsAux :
    ∀ fuel n : Nat, n < fuel → digitsVal (natDigitsAux fuel n) = n := by
  intro fuel
  induction fuel with
  | zero => intro n h; omega
  | succ fuel ih =>
    intro n h
    rw [natDigitsAux]
    by_cases h10 : n < 10
    · simp only [h10, if_pos]
      simp [digitsVal, charDigitVal_digitChar h10]
    · rw [if_neg h10]
      have hdiv : n / 10 < n := Nat.div_lt_self (by omega) (by omega)
      rw [digitsVal_append, ih (n / 10) (by omega)]
      simp [digitsVal, charDigitVal_digitChar (Nat.mod_lt n (by omega))]
      omega

/-- The decimal digit list evaluates back to the number. -/
theorem digitsVal_natDigits (n : Nat) : digitsVal (natDigits n) = n :=
  digitsVal_natDigitsAux (n + 1) n (Nat.lt_succ_self n)

/-- Decimal rendering is injective. -/
theorem natDigits_injective : Function.Injective natDigits := by
  intro a b h
  have := digitsVal_natDigits a
  rw [h, digitsVal_natDigits] at this
  omega

theorem natToString_injective : Function.Injective natToString := by
  intro a b h
  apply natDigits_injective
  have : (natToString a).data = (natToString b).data := by rw [h]
  simpa [natToString] using this

theorem renameCandidate_injective_pos (newFilePath : String) :
    ∀ j k : Nat,
      renameCandidate newFilePath (j + 1) = renameCandidate newFilePath (k + 1) →
      j = k := by
  intro j k h
  obtain ⟨pre, hpre⟩ := pathJoin_eq_prepend (pathDirname newFilePath)
  simp only [renameCandidate, hpre] at h
  have hdata := congrArg String.data h
  simp only [String.data_append, natToString] at hdata
  have h2 := List.append_cancel_left hdata
  have h3 := List.append_cancel_right h2
  have h4 := List.append_cancel_left h3
  have := natDigits_injective h4
  omega

/-- Pigeonhole: among the candidates 1 .. fs.length + 1 at least one path is
not present in the filesystem. -/
theorem exists_free_candidate (fs : FileSys) (newFilePath : String) :
    ∃ j : Nat, j < fs.length + 2 ∧
      existsSync fs (renameCandidate newFilePath j) = false := by
  by_contra hall
  push_neg at hall
  have hmem : ∀ j : Nat, j < fs.length + 2 →
      renameCandidate newFilePath j ∈ fs.map Prod.fst := by
    intro j hj
    have := hall j hj
    have hex : existsSync fs (renameCandidate newFilePath j) = true := by
      cases hx : existsSync fs (renameCandidate newFilePath j)
      · exact absurd hx this
      · rfl
    simp only [existsSync, List.any_eq_true, decide_eq_true_eq] at hex
    obtain ⟨e, he, hep⟩ := hex
    exact List.mem_map.mpr ⟨e, he, hep⟩
  have hnodup : (List.map (fun i => renameCandidate newFilePath (i + 1))
      (List.range (fs.length + 1))).Nodup := by
    apply List.Nodup.map
    · intro a b hab
      exact renameCandidate_injective_pos newFilePath a b hab
    · exact List.nodup_range _
  have hsub : (List.map (fun i => renameCandidate newFilePath (i + 1))
      (List.range (fs.length + 1))) ⊆ fs.map Prod.fst := by
    intro x hx
    obtain ⟨i, hi, rfl⟩ := List.mem_map.mp hx
    exact hmem (i + 1) (by simpa using Nat.succ_lt_succ (List.mem_range.mp hi))
  have hsp := List.subperm_of_subset hnodup hsub
  have hlen := hsp.length_le
  simp only [List.length_map, List.length_range] at hlen
  omega

/-- The loop returns the first free candidate at or after the current count
whenever one is within fuel reach. -/
theorem renameLoop_finds (fs : FileSys) (newFilePath : String) :
    ∀ fuel count : Nat,
      (∃ j : Nat, j < fuel ∧
        existsSync fs (renameCandidate newFilePath (count + j)) = false) →
      ∃ j : Nat, j < fuel ∧
        renameLoop fs newFilePath false fuel count
          (renameCandidate newFilePath count) =
          renameCandidate newFilePath (count + j) ∧
        existsSync fs (renameCandidate newFilePath (count + j)) = false ∧
        ∀ i : Nat, i < j →
          existsSync fs (renameCandidate newFilePath (count + i)) = true := by
  intro fuel
  induction fuel with
  | zero =>
    intro count h
    obtain ⟨j, hj, _⟩ := h
    omega
  | succ fuel ih =>
    intro count h
    by_cases hc : existsSync fs (renameCandidate newFilePath count) = true
    · obtain ⟨j, hj, hfree⟩ := h
      have hj0 : j ≠ 0 := by
        intro hj0
        rw [hj0] at hfree
        simp at hfree
        exact absurd hc (by simp [hfree])
      have hih := ih (count + 1) ⟨j - 1, by omega, by
        have : count + 1 + (j - 1) = count + j := by omega
        rw [this]; exact hfree⟩
      obtain ⟨j2, hj2, heq, hfree2, hmin⟩ := hih
      refine ⟨j2 + 1, by omega, ?_, ?_, ?_⟩
      · rw [renameLoop]
        simp only [hc, not_false_iff, and_true, if_pos, Bool.not_eq_true]
        have : count + 1 + j2 = count + (j2 + 1) := by omega
        rw [← this]
        exact heq
      · have : count + (j2 + 1) = count + 1 + j2 := by omega
        rw [this]; exact hfree2
      · intro i hi
        cases i with
        | zero => simpa using hc
        | succ i =>
          have : count + (i + 1) = count + 1 + i := by omega
          rw [this]
          exact hmin i (by omega)
    · refine ⟨0, by omega, ?_, ?_, ?_⟩
      · rw [renameLoop]
        simp only [hc]
        simp
      · simpa using (by
          cases hx : existsSync fs (renameCandidate newFilePath count)
          · rfl
          · exact absurd hx hc)
      · intro i hi; omega

/-- Unfolding of the lookup on a cons cell. -/
theorem fsLookup_cons (e : String × Nat) (t : FileSys) (p : String) :
    fsLookup (e :: t) p = if e.1 = p then some e.2 else fsLookup t p := by
  by_cases h : e.1 = p
  · simp [fsLookup, List.find?_cons, h]
  · simp [fsLookup, List.find?_cons, h]

/-- Lookup of the fresh target in the re-keyed list. -/
theorem fsLookup_keep_last (l : FileSys) (final : String) (c : Nat)
    (hno : ∀ e ∈ l, e.1 ≠ final) :
    fsLookup (l ++ [(final, c)]) final = some c := by
  induction l with
  | nil => simp [fsLookup, List.find?_cons]
  | cons e t ih =>
    have he : e.1 ≠ final := hno e (by simp)
    rw [List.cons_append, fsLookup_cons, if_neg he]
    exact ih (fun x hx => hno x (by simp [hx]))

/-- Lookup of an untouched path in the re-keyed list. -/
theorem fsLookup_other (fs : FileSys) (old final p : String) (c : Nat)
    (hpo : p ≠ old) (hpf : p ≠ final) :
    fsLookup ((List.filter (fun e => ¬(e.1 = old ∨ e.1 = final)) fs)
      ++ [(final, c)]) p = fsLookup fs p := by
  induction fs with
  | nil =>
    rw [List.filter_nil, List.nil_append, fsLookup_cons,
      if_neg (Ne.symm hpf)]
  | cons e t ih =>
    by_cases hkeep : e.1 = old ∨ e.1 = final
    · have hep : e.1 ≠ p := by
        rcases hkeep with h | h <;> rw [h]
        · exact Ne.symm hpo
        · exact Ne.symm hpf
      rw [List.filter_cons_of_neg (by simp [hkeep]), ih, fsLookup_cons,
        if_neg hep]
    · rw [List.filter_cons_of_pos (by simp [hkeep]), List.cons_append,
        fsLookup_cons, fsLookup_cons]
      by_cases hep : e.1 = p
      · rw [if_pos hep, if_pos hep]
      · rw [if_neg hep, if_neg hep]
        exact ih

/-- A findSome? scan returns the image of the first element whose image is
present, when all earlier images are absent. -/
theorem findSome?_first_some {α β : Type} (f : α → Option β)
    (pre post : List α) (p : α) (d : β)
    (hpre : ∀ q ∈ pre, f q = none) (hp : f p = some d) :
    (pre ++ p :: post).findSome? f = some d := by
  induction pre with
  | nil => simp [List.findSome?_cons, hp]
  | cons q t ih =>
    have hq : f q = none := hpre q (by simp)
    simp only [List.cons_append, List.findSome?_cons, hq]
    exact ih (fun x hx => hpre x (by simp [hx]))

/-- A validated record has a string filename that is nonempty. -/
theorem validate_filename {v : Json} (hv : validateJsonResponse v = true) :
    ∃ fn, jsonStrField v "filename" = some fn ∧ fn ≠ "" := by
  unfold validateJsonResponse at hv
  split at hv
  case _ s heq =>
    refine ⟨s, by simp [jsonStrField, heq], ?_⟩
    intro hs
    subst hs
    rw [if_pos (show strTrim "" = "" from rfl)] at hv
    exact absurd hv (by simp)
  case _ => exact absurd hv (by simp)

/-- On a record with a nonempty string filename, the tool-call record
construction passes filename and category through unchanged. -/
theorem toolCallResult_eq {v : Json} {fn : String}
    (hfn : jsonStrField v "filename" = some fn) (hne : fn ≠ "") :
    toolCallResult v = ⟨jsonStrField v "category", fn⟩ := by
  unfold toolCallResult
  rw [hfn]
  simp [hne]

/-- An empty string never parses as JSON. -/
theorem jsonParse_empty : jsonParse "" = none := rfl

/-- The OpenAI tool-call success path returns the validated record. -/
theorem openaiRename_toolcall (A B : ModelReply) (fc : FnCall) (v : Json)
    (hfc : A.fnCall = some fc) (hname : fc.name = "rename_screenshot")
    (hfin : A.finishReason = "stop" ∨ A.finishReason = "function_call")
    (hp : jsonParse (openaiArgStr fc) = some v)
    (hv : validateJsonResponse v = true) :
    openaiRename A B = toolCallResult v := by
  have hcond : ¬(A.finishReason ≠ "stop" ∧ A.finishReason ≠ "function_call") := by
    rcases hfin with h | h <;> simp [h]
  unfold openaiRename
  rw [if_neg hcond, hfc]
  simp only [hname, ne_eq, not_true_eq_false, if_false, hp, hv, if_true]

/-- The Ollama tool-call success path returns the validated record. -/
theorem ollamaRename_toolcall (A B : ModelReply) (s : String) (v : Json)
    (hfc : A.fnCall = some ⟨"rename_screenshot", some s⟩)
    (hp : jsonParse s = some v) (hv : validateJsonResponse v = true) :
    ollamaRename A B = toolCallResult v := by
  unfold ollamaRename
  rw [hfc]
  simp only [ne_eq, not_true_eq_false, if_false, hp, hv, if_true]

/-! ## Claim theorems -/

/-- C1 counterexample: when the provider resolves to the FailureSentinel
(filename unknown, no category), processFile does not treat the file as
skipped: the skip branch fires only on an empty filename, so this concrete
sentinel file is backed up and moved under the name date-unknown, against
the claim that no backup copy and no move happen. -/
theorem c1_counterexample :
    processFileAction epochToDateFixed 2026 statNone failureSentinel
      "/watch/Screenshot two.png" ["web"] "/out" "/out/original" =
      some ("/out/original/Screenshot two.png", "/out/-unknown.png") := by
  rfl

/-- C1 (corrected): the queue worker skips a file, with no backup and no
move, exactly when the provider result carries an empty filename; the
FailureSentinel carries the nonempty filename unknown, so a sentinel
result is backed up and moved into the base output directory under the
name date-unknown rather than skipped. -/
theorem c1_sentinel_processed :
    (∀ (e : Nat → JSDate) (cy : Nat) (stat : String → Option JSDate)
        (filePath : String) (keys : List String) (outDir origDir : String),
      processFileAction e cy stat failureSentinel filePath keys outDir origDir =
        some (pathJoin origDir (pathBasename filePath),
          pathJoin outDir
            (getDateFromScreenshot e cy stat (pathBasename filePath) ++
              "-" ++ "unknown" ++ pathExtname filePath)))
  ∧ (∀ (e : Nat → JSDate) (cy : Nat) (stat : String → Option JSDate)
        (res : JsonResponse) (filePath : String) (keys : List String)
        (outDir origDir : String), res.filename = "" →
      processFileAction e cy stat res filePath keys outDir origDir = none) := by
  constructor
  · intro e cy stat filePath keys outDir origDir
    rfl
  · intro e cy stat res filePath keys outDir origDir h
    unfold processFileAction
    rw [if_pos h]

/-- C1 witness: the amended behaviour at concrete inputs, a sentinel file
that is processed and an empty-filename result that is skipped. -/
theorem c1_sentinel_processed_witness :
    processFileAction epochToDateFixed 2026 statNone failureSentinel
      "/pics/Screenshot one.png" ["code"] "/dest" "/dest/original" =
      some ("/dest/original/Screenshot one.png", "/dest/-unknown.png") ∧
    processFileAction epochToDateFixed 2026 statNone ⟨none, ""⟩
      "/pics/Screenshot one.png" ["code"] "/dest" "/dest/original" = none := by
  constructor
  · have h := c1_sentinel_processed.1 epochToDateFixed 2026 statNone
      "/pics/Screenshot one.png" ["code"] "/dest" "/dest/original"
    rw [h]
    rfl
  · exact c1_sentinel_processed.2 epochToDateFixed 2026 statNone ⟨none, ""⟩
      "/pics/Screenshot one.png" ["code"] "/dest" "/dest/original" rfl

/-- C6 (confirmed): a failing move syscall is only logged: the embedded
renameFile is a total function, so no exception reaches the caller, and in
the failure case it returns the filesystem unchanged, the source entry in
place with its content untouched; the operation is all-or-nothing. -/
theorem c6_move_failure_atomic (fs : FileSys) (oldPath newFilePath : String)
    (overwrite : Bool) :
    renameFile fs oldPath newFilePath overwrite true = fs ∧
    fsLookup (renameFile fs oldPath newFilePath overwrite true) oldPath =
      fsLookup fs oldPath :=
  ⟨rfl, rfl⟩

/-- C8 (code_bug): processFile computes the date by handing the basename
of the file, not its full path, to getDateFromScreenshot, whose stat
fallback resolves that bare name against the working directory.  At this
concrete input the watched file has readable creation metadata under its
full path (third conjunct: the date inference applied to the full path
would produce it), yet the worker builds the new name with an empty date,
because the stat of the bare basename fails. -/
theorem c8_basename_stat_bug :
    processFileAction epochToDateFixed 2026 statWatchOnly
      ⟨some "web", "login-page"⟩ "/watch/Screenshot abc.png" ["web"]
      "/out" "/out/original" =
      some ("/out/original/Screenshot abc.png", "/out/web/-login-page.png") ∧
    statWatchOnly "/watch/Screenshot abc.png" = some ⟨2024, 1, 2⟩ ∧
    getDateFromScreenshot epochToDateFixed 2026 statWatchOnly
      "/watch/Screenshot abc.png" = "2024-01-02" :=
  ⟨rfl, rfl, rfl⟩

/-- C9 (confirmed): for every per-item behaviour, including any that
throws, the queue made from the contained worker processes every item:
the run never aborts (no escaped error) and the outcome list is exactly
the per-item outcomes, each item reaching its own terminal handling
independently of the others. -/
theorem c9_queue_isolation (work : String → Except String Unit)
    (items : List String) :
    runQueue (queueWorker work) items =
      (items.map (processFileRun work), none) := by
  induction items with
  | nil => rfl
  | cons i is ih => simp [runQueue, queueWorker, List.map_cons, ih]

/-- C10 (confirmed): isValidDate rejects every extracted date whose year
lies below 1970 or above the current year plus one, regardless of month
and day; and such a match falls through to the metadata fallback, shown
at a filename carrying the calendar-valid but out-of-range date
1969-12-31, where the file creation date is used instead. -/
theorem c10_year_range :
    (∀ cy y m d : Nat, (y < 1970 ∨ y > cy + 1) → isValidDate cy y m d = false)
  ∧ getDateFromScreenshot epochToDateFixed 2026 (fun _ => some ⟨2025, 3, 4⟩)
      "IMG_1969-12-31.png" = "2025-03-04" := by
  constructor
  · intro cy y m d h
    unfold isValidDate
    rw [if_pos h]
  · rfl

/-- C10 witness: the year bound applied at concrete inputs on each side of
the admissible range. -/
theorem c10_year_range_witness :
    isValidDate 2026 1969 12 31 = false ∧ isValidDate 2026 2028 1 1 = false :=
  ⟨c10_year_range.1 2026 1969 12 31 (Or.inl (by omega)),
   c10_year_range.1 2026 2028 1 1 (Or.inr (by omega))⟩

/-- C3 counterexample: one and the same model reply (finish reason length,
a well-formed rename_screenshot tool call, no text content) drives the two
providers to different observable rename results: the OpenAI pipeline
rejects the finish reason and ends at the sentinel, while the Ollama
pipeline never consults the finish reason and accepts the tool call. -/
theorem c3_counterexample :
    openaiRename
        ⟨"length", some ⟨"rename_screenshot",
          some "\x7b\"filename\":\"login-page\",\"category\":\"web\"\x7d"⟩, ""⟩
        ⟨"length", some ⟨"rename_screenshot",
          some "\x7b\"filename\":\"login-page\",\"category\":\"web\"\x7d"⟩, ""⟩ =
      failureSentinel ∧
    ollamaRename
        ⟨"length", some ⟨"rename_screenshot",
          some "\x7b\"filename\":\"login-page\",\"category\":\"web\"\x7d"⟩, ""⟩
        ⟨"length", some ⟨"rename_screenshot",
          some "\x7b\"filename\":\"login-page\",\"category\":\"web\"\x7d"⟩, ""⟩ =
      ⟨some "web", "login-page"⟩ ∧
    failureSentinel ≠ (⟨some "web", "login-page"⟩ : JsonResponse) :=
  ⟨rfl, rfl, by decide⟩

/-- C3 (corrected): the two providers share the extraction and validation
semantics and their free-text fallback stages coincide reply for reply,
and on every reply whose tool call validates (with a finish reason the
OpenAI provider accepts) they return the same record; but the Stage A
orchestration differs, the Ollama provider ignoring the finish reason and
extracting from Stage A content in place, so observable results can
differ for the same reply. -/
theorem c3_provider_equivalence :
    (∀ B : ModelReply, openaiFallbackRename B = ollamaFallbackRename B)
  ∧ (∀ (A B : ModelReply) (s : String) (v : Json),
      A.fnCall = some ⟨"rename_screenshot", some s⟩ →
      (A.finishReason = "stop" ∨ A.finishReason = "function_call") →
      jsonParse s = some v → validateJsonResponse v = true →
      openaiRename A B = ollamaRename A B) := by
  constructor
  · intro B; rfl
  · intro A B s v hfc hfin hp hv
    have hs : s ≠ "" := by
      intro h
      rw [h, jsonParse_empty] at hp
      exact Option.noConfusion hp
    have harg : jsonParse (openaiArgStr ⟨"rename_screenshot", some s⟩) = some v := by
      simpa [openaiArgStr, hs] using hp
    rw [openaiRename_toolcall A B ⟨"rename_screenshot", some s⟩ v hfc rfl hfin harg hv,
      ollamaRename_toolcall A B s v hfc hp hv]

/-- C3 witness: the shared fallback and the shared tool-call success path
at concrete replies. -/
theorem c3_provider_equivalence_witness :
    openaiFallbackRename ⟨"stop", none, "hello"⟩ =
      ollamaFallbackRename ⟨"stop", none, "hello"⟩ ∧
    openaiRename
        ⟨"stop", some ⟨"rename_screenshot", some "\x7b\"filename\":\"abc\"\x7d"⟩, ""⟩
        ⟨"stop", none, ""⟩ =
      ollamaRename
        ⟨"stop", some ⟨"rename_screenshot", some "\x7b\"filename\":\"abc\"\x7d"⟩, ""⟩
        ⟨"stop", none, ""⟩ :=
  ⟨c3_provider_equivalence.1 ⟨"stop", none, "hello"⟩,
   c3_provider_equivalence.2
     ⟨"stop", some ⟨"rename_screenshot", some "\x7b\"filename\":\"abc\"\x7d"⟩, ""⟩
     ⟨"stop", none, ""⟩ "\x7b\"filename\":\"abc\"\x7d"
     (Json.obj [("filename", Json.str "abc")]) rfl (Or.inl rfl) rfl rfl⟩

/-- C4 counterexample: an Ollama structured-call reply with no tool call
and no content resolves to the sentinel directly, although the free-text
stage applied to the fallback reply would have produced a record; the
claim that such an outcome proceeds to the free-text fallback stage fails
on the Ollama provider. -/
theorem c4_counterexample :
    ollamaRename ⟨"stop", none, ""⟩
        ⟨"stop", none, "\x7b\"filename\":\"abc\"\x7d"⟩ = failureSentinel ∧
    ollamaFallbackRename ⟨"stop", none, "\x7b\"filename\":\"abc\"\x7d"⟩ =
      ⟨none, "abc"⟩ ∧
    failureSentinel ≠ (⟨none, "abc"⟩ : JsonResponse) :=
  ⟨rfl, rfl, by decide⟩

/-- C4 (corrected): the OpenAI provider falls through to the free-text
fallback on every listed Stage A failure (bad finish reason, missing or
misnamed call, unparsable arguments, failed validation); the Ollama
provider falls through on a misnamed call, non-string arguments, a parse
error or failed validation, and when the tool is not invoked it first
attempts extraction from the Stage A content in place, but with neither
tool call nor content it returns the sentinel directly, without any
free-text request. -/
theorem c4_fallthrough :
    (∀ A B : ModelReply,
      ((A.finishReason ≠ "stop" ∧ A.finishReason ≠ "function_call") ∨
        A.fnCall = none ∨
        (∃ fc, A.fnCall = some fc ∧ fc.name ≠ "rename_screenshot") ∨
        (∃ fc, A.fnCall = some fc ∧ jsonParse (openaiArgStr fc) = none) ∨
        (∃ fc v, A.fnCall = some fc ∧ jsonParse (openaiArgStr fc) = some v ∧
          validateJsonResponse v = false)) →
      openaiRename A B = openaiFallbackRename B)
  ∧ (∀ (A B : ModelReply) (fc : FnCall), A.fnCall = some fc →
      (fc.name ≠ "rename_screenshot" ∨ fc.arguments = none ∨
        (∃ s, fc.arguments = some s ∧ jsonParse s = none) ∨
        (∃ s v, fc.arguments = some s ∧ jsonParse s = some v ∧
          validateJsonResponse v = false)) →
      ollamaRename A B = ollamaFallbackRename B)
  ∧ (∀ A B : ModelReply, A.fnCall = none → A.content = "" →
      ollamaRename A B = failureSentinel)
  ∧ (∀ (A B : ModelReply) (v : Json), A.fnCall = none → A.content ≠ "" →
      extractJsonFromText A.content = some v → validateJsonResponse v = true →
      ollamaRename A B = jsonToResponse v) := by
  refine ⟨?_, ?_, ?_, ?_⟩
  · intro A B h
    unfold openaiRename
    by_cases hcond : A.finishReason ≠ "stop" ∧ A.finishReason ≠ "function_call"
    · rw [if_pos hcond]
    · rw [if_neg hcond]
      rcases h with h | h | ⟨fc, hfc, hname⟩ | ⟨fc, hfc, hparse⟩ | ⟨fc, v, hfc, hparse, hval⟩
      · exact absurd h hcond
      · rw [h]
      · rw [hfc]
        simp [hname]
      · rw [hfc]
        by_cases hname : fc.name ≠ "rename_screenshot"
        · simp [hname]
        · simp [hname, hparse]
      · rw [hfc]
        by_cases hname : fc.name ≠ "rename_screenshot"
        · simp [hname]
        · simp [hname, hparse, hval]
  · intro A B fc hfc h
    unfold ollamaRename
    rw [hfc]
    rcases h with hname | hargs | ⟨s, hargs, hparse⟩ | ⟨s, v, hargs, hparse, hval⟩
    · simp [hname]
    · by_cases hname : fc.name ≠ "rename_screenshot"
      · simp [hname]
      · simp [hname, hargs]
    · by_cases hname : fc.name ≠ "rename_screenshot"
      · simp [hname]
      · simp [hname, hargs, hparse]
    · by_cases hname : fc.name ≠ "rename_screenshot"
      · simp [hname]
      · simp [hname, hargs, hparse, hval]
  · intro A B hfc hcontent
    unfold ollamaRename
    rw [hfc, hcontent]
    rfl
  · intro A B v hfc hcontent hext hval
    unfold ollamaRename
    rw [hfc]
    simp [hcontent, hext, hval]

/-- C4 witness: each fall-through shape at a concrete reply. -/
theorem c4_fallthrough_witness :
    openaiRename ⟨"length", none, ""⟩ ⟨"stop", none, "x"⟩ =
      openaiFallbackRename ⟨"stop", none, "x"⟩ ∧
    ollamaRename ⟨"stop", some ⟨"other_tool", some "\x7b\x7d"⟩, ""⟩
        ⟨"stop", none, "y"⟩ =
      ollamaFallbackRename ⟨"stop", none, "y"⟩ ∧
    ollamaRename ⟨"stop", none, ""⟩ ⟨"stop", none, "z"⟩ = failureSentinel ∧
    ollamaRename ⟨"stop", none, "\x7b\"filename\":\"pic\"\x7d"⟩
        ⟨"stop", none, "w"⟩ =
      jsonToResponse (Json.obj [("filename", Json.str "pic")]) := by
  refine ⟨?_, ?_, ?_, ?_⟩
  · exact c4_fallthrough.1 ⟨"length", none, ""⟩ ⟨"stop", none, "x"⟩
      (Or.inl ⟨by decide, by decide⟩)
  · exact c4_fallthrough.2.1 ⟨"stop", some ⟨"other_tool", some "\x7b\x7d"⟩, ""⟩
      ⟨"stop", none, "y"⟩ ⟨"other_tool", some "\x7b\x7d"⟩ rfl (Or.inl (by decide))
  · exact c4_fallthrough.2.2.1 ⟨"stop", none, ""⟩ ⟨"stop", none, "z"⟩ rfl rfl
  · exact c4_fallthrough.2.2.2 ⟨"stop", none, "\x7b\"filename\":\"pic\"\x7d"⟩
      ⟨"stop", none, "w"⟩ (Json.obj [("filename", Json.str "pic")]) rfl
      (by decide) rfl rfl

/-- C5 (confirmed): whenever the tool-call path of a reply yields a
record that parses and passes validation, with a nonempty filename, both
providers return that record unchanged: the filename as given and the
category field passed through verbatim, including an absent category (the
OpenAI provider additionally under its accepted finish reasons). -/
theorem c5_toolcall_verbatim (A B : ModelReply) (s fn : String) (v : Json)
    (hfc : A.fnCall = some ⟨"rename_screenshot", some s⟩)
    (hp : jsonParse s = some v)
    (hv : validateJsonResponse v = true)
    (hfn : jsonStrField v "filename" = some fn)
    (hfin : A.finishReason = "stop" ∨ A.finishReason = "function_call") :
    openaiRename A B = ⟨jsonStrField v "category", fn⟩ ∧
    ollamaRename A B = ⟨jsonStrField v "category", fn⟩ := by
  obtain ⟨fn2, hfn2, hne2⟩ := validate_filename hv
  have hfeq : fn2 = fn := Option.some.inj (hfn2.symm.trans hfn)
  have hne : fn ≠ "" := hfeq ▸ hne2
  have hres := toolCallResult_eq hfn hne
  have hs : s ≠ "" := by
    intro h
    rw [h, jsonParse_empty] at hp
    exact Option.noConfusion hp
  have harg : jsonParse (openaiArgStr ⟨"rename_screenshot", some s⟩) = some v := by
    simpa [openaiArgStr, hs] using hp
  constructor
  · rw [openaiRename_toolcall A B ⟨"rename_screenshot", some s⟩ v hfc rfl hfin harg hv, hres]
  · rw [ollamaRename_toolcall A B s v hfc hp hv, hres]

/-- C5 witness: verbatim pass-through at two concrete replies, one with a
category and one with the category absent. -/
theorem c5_toolcall_verbatim_witness :
    (openaiRename
        ⟨"stop", some ⟨"rename_screenshot",
          some "\x7b\"filename\":\"login-page\",\"category\":\"web\"\x7d"⟩, ""⟩
        ⟨"stop", none, ""⟩ = ⟨some "web", "login-page"⟩ ∧
      ollamaRename
        ⟨"stop", some ⟨"rename_screenshot",
          some "\x7b\"filename\":\"login-page\",\"category\":\"web\"\x7d"⟩, ""⟩
        ⟨"stop", none, ""⟩ = ⟨some "web", "login-page"⟩) ∧
    (openaiRename
        ⟨"function_call", some ⟨"rename_screenshot",
          some "\x7b\"filename\":\"note\"\x7d"⟩, ""⟩
        ⟨"stop", none, ""⟩ = ⟨none, "note"⟩ ∧
      ollamaRename
        ⟨"function_call", some ⟨"rename_screenshot",
          some "\x7b\"filename\":\"note\"\x7d"⟩, ""⟩
        ⟨"stop", none, ""⟩ = ⟨none, "note"⟩) := by
  constructor
  · have h := c5_toolcall_verbatim
      ⟨"stop", some ⟨"rename_screenshot",
        some "\x7b\"filename\":\"login-page\",\"category\":\"web\"\x7d"⟩, ""⟩
      ⟨"stop", none, ""⟩
      "\x7b\"filename\":\"login-page\",\"category\":\"web\"\x7d" "login-page"
      (Json.obj [("filename", Json.str "login-page"), ("category", Json.str "web")])
      rfl rfl rfl rfl (Or.inl rfl)
    exact ⟨by rw [h.1]; rfl, by rw [h.2]; rfl⟩
  · have h := c5_toolcall_verbatim
      ⟨"function_call", some ⟨"rename_screenshot",
        some "\x7b\"filename\":\"note\"\x7d"⟩, ""⟩
      ⟨"stop", none, ""⟩
      "\x7b\"filename\":\"note\"\x7d" "note"
      (Json.obj [("filename", Json.str "note")])
      rfl rfl rfl rfl (Or.inr rfl)
    exact ⟨by rw [h.1]; rfl, by rw [h.2]; rfl⟩

/-- C2 (confirmed): for every filesystem and target path, renameFile never
overwrites an existing file: the resolved final path does not exist; it is
a suffix candidate (the requested path for count zero, the dash-count
inserted before the extension otherwise) and every smaller candidate is
occupied, so the smallest free suffix is taken; the successful move
re-keys the source content to exactly that path and leaves every other
path unchanged. -/
theorem c2_collision_safe (fs : FileSys) (oldPath newFilePath : String)
    (c : Nat) (hold : fsLookup fs oldPath = some c) :
    existsSync fs (resolveRenamePath fs newFilePath false) = false ∧
    (∃ k : Nat,
      resolveRenamePath fs newFilePath false = renameCandidate newFilePath k ∧
      ∀ j : Nat, j < k →
        existsSync fs (renameCandidate newFilePath j) = true) ∧
    fsLookup (renameFile fs oldPath newFilePath false false)
      (resolveRenamePath fs newFilePath false) = some c ∧
    (∀ p : String, p ≠ oldPath →
      p ≠ resolveRenamePath fs newFilePath false →
      fsLookup (renameFile fs oldPath newFilePath false false) p =
        fsLookup fs p) := by
  obtain ⟨jf, hjf, hfreejf⟩ := exists_free_candidate fs newFilePath
  obtain ⟨j, hj, heq, hfreej, hmin⟩ :=
    renameLoop_finds fs newFilePath (fs.length + 2) 0
      ⟨jf, hjf, by simpa using hfreejf⟩
  have hres : resolveRenamePath fs newFilePath false =
      renameCandidate newFilePath j := by
    unfold resolveRenamePath
    have h0 : renameCandidate newFilePath 0 = newFilePath := rfl
    rw [← h0]
    simpa using heq
  have hfree : existsSync fs (resolveRenamePath fs newFilePath false) = false := by
    rw [hres]
    simpa using hfreej
  have hrn : renameFile fs oldPath newFilePath false false =
      (List.filter
        (fun e => ¬(e.1 = oldPath ∨ e.1 = resolveRenamePath fs newFilePath false))
        fs) ++ [(resolveRenamePath fs newFilePath false, c)] := by
    unfold renameFile fsRename
    rw [if_neg (by simp)]
    rw [hold]
  refine ⟨hfree, ⟨j, hres, fun i hi => by simpa using hmin i hi⟩, ?_, ?_⟩
  · rw [hrn]
    apply fsLookup_keep_last
    intro e he hef
    have hm := List.mem_filter.mp he
    have : ¬(e.1 = oldPath ∨ e.1 = resolveRenamePath fs newFilePath false) := by
      simpa using hm.2
    exact this (Or.inr hef)
  · intro p hpo hpf
    rw [hrn]
    exact fsLookup_other fs oldPath (resolveRenamePath fs newFilePath false) p c hpo hpf

/-- C2 witness: the spec's own collision example: with the path
out/2023-11-05-login.png occupied, a second file headed for that exact
path lands at out/2023-11-05-login-1.png, which did not exist, and its
content arrives there. -/
theorem c2_collision_safe_witness :
    resolveRenamePath [("out/2023-11-05-login.png", 7), ("src/s.png", 3)]
      "out/2023-11-05-login.png" false = "out/2023-11-05-login-1.png" ∧
    existsSync [("out/2023-11-05-login.png", 7), ("src/s.png", 3)]
      "out/2023-11-05-login-1.png" = false ∧
    fsLookup
      (renameFile [("out/2023-11-05-login.png", 7), ("src/s.png", 3)]
        "src/s.png" "out/2023-11-05-login.png" false false)
      "out/2023-11-05-login-1.png" = some 3 := by
  have h := c2_collision_safe [("out/2023-11-05-login.png", 7), ("src/s.png", 3)]
    "src/s.png" "out/2023-11-05-login.png" 3 rfl
  have hr : resolveRenamePath [("out/2023-11-05-login.png", 7), ("src/s.png", 3)]
      "out/2023-11-05-login.png" false = "out/2023-11-05-login-1.png" := rfl
  refine ⟨hr, ?_, ?_⟩
  · have := h.1
    rw [hr] at this
    exact this
  · have := h.2.2.1
    rw [hr] at this
    exact this

/-- C7 counterexample: the code tries the two-digit YY-MM-DD pattern
before the compact YYYYMMDD pattern, while the claim lists compact before
the two-digit-year forms; on this concrete filename the code extracts
2012-11-05 from the leading two-digit groups, whereas a scan in the
claimed order extracts 2024-01-01 from the compact run. -/
theorem c7_counterexample :
    getDateFromScreenshot epochToDateFixed 2026 statNone
      "12-11-05_20240101.png" = "2012-11-05" ∧
    specOrderDateScan epochToDateFixed 2026 statNone
      "12-11-05_20240101.png" = "2024-01-01" ∧
    ("2012-11-05" : String) ≠ "2024-01-01" :=
  ⟨rfl, rfl, by decide⟩

/-- C7 (corrected): date inference tests the patterns in the source
order (epoch timestamps; then ISO YYYY-MM-DD; US MM/DD/YYYY; European
DD.MM.YYYY; two-digit YY-MM-DD; compact YYYYMMDD; DD-MM-YYYY; YYYY_MM_DD;
DD_MM_YYYY; two-digit MM-DD-YY): when no epoch pattern matches in range
and a pattern yields a valid date while all earlier patterns yield none,
that date is the result; and validity rejects calendar-invalid
combinations such as day 30 in February. -/
theorem c7_code_order :
    (∀ (e : Nat → JSDate) (cy : Nat) (stat : String → Option JSDate)
        (filePath : String) (pre post : List DatePat) (p : DatePat) (d : JSDate),
      datePatterns = pre ++ p :: post →
      tryEpoch e cy (pathBasename filePath).data = none →
      (∀ q ∈ pre, tryDatePattern cy q (pathBasename filePath).data = none) →
      tryDatePattern cy p (pathBasename filePath).data = some d →
      getDateFromScreenshot e cy stat filePath = formatDate d)
  ∧ (∀ cy y : Nat, isValidDate cy y 2 30 = false) := by
  constructor
  · intro e cy stat filePath pre post p d hsplit hepoch hpre hp
    unfold getDateFromScreenshot
    dsimp only
    rw [hepoch, hsplit,
      findSome?_first_some (fun q => tryDatePattern cy q (pathBasename filePath).data)
        pre post p d hpre hp]
  · intro cy y
    unfold isValidDate
    by_cases hy : y < 1970 ∨ y > cy + 1
    · rw [if_pos hy]
    · rw [if_neg hy, if_neg (by omega), if_neg (by omega)]
      unfold mkJSDate daysInMonth
      by_cases hl : isLeapYear y = true
      · simp [hl]
      · simp [hl]

/-- C7 witness: the order property applied with the ISO pattern first in
the split, at a filename whose ISO date is valid, and the February
rejection at a concrete year. -/
theorem c7_code_order_witness :
    getDateFromScreenshot epochToDateFixed 2026 statNone
      "a2023-11-05b.png" = "2023-11-05" ∧
    isValidDate 2026 2024 2 30 = false := by
  constructor
  · have h := c7_code_order.1 epochToDateFixed 2026 statNone "a2023-11-05b.png"
      []
      [ ⟨[RTok.dOneTwo, RTok.lit '/', RTok.dOneTwo, RTok.lit '/', RTok.dExact 4], 3, 1, 2, false⟩,
        ⟨[RTok.dOneTwo, RTok.lit '.', RTok.dOneTwo, RTok.lit '.', RTok.dExact 4], 3, 2, 1, false⟩,
        ⟨[RTok.dExact 2, RTok.lit '-', RTok.dExact 2, RTok.lit '-', RTok.dExact 2], 1, 2, 3, true⟩,
        ⟨[RTok.dExact 4, RTok.dExact 2, RTok.dExact 2], 1, 2, 3, false⟩,
        ⟨[RTok.dOneTwo, RTok.lit '-', RTok.dOneTwo, RTok.lit '-', RTok.dExact 4], 3, 2, 1, false⟩,
        ⟨[RTok.dExact 4, RTok.lit '_', RTok.dExact 2, RTok.lit '_', RTok.dExact 2], 1, 2, 3, false⟩,
        ⟨[RTok.dOneTwo, RTok.lit '_', RTok.dOneTwo, RTok.lit '_', RTok.dExact 4], 3, 2, 1, false⟩,
        ⟨[RTok.dOneTwo, RTok.lit '-', RTok.dOneTwo, RTok.lit '-', RTok.dExact 2], 3, 1, 2, true⟩ ]
      ⟨[RTok.dExact 4, RTok.lit '-', RTok.dExact 2, RTok.lit '-', RTok.dExact 2], 1, 2, 3, false⟩
      ⟨2023, 11, 5⟩ rfl rfl (by intro q hq; exact absurd hq (List.not_mem_nil q)) rfl
    rw [h]
    rfl
  · exact c7_code_order.2 2026 2024

end RenameScreenshot
